import Mathlib

/-!
Shallow embedding of the Iron Fish wallet orchestrator
(src/ironfish/src/wallet/wallet.ts) together with proofs about its spend
selection, block connect and disconnect pipeline, note decryption payload
construction, rebroadcast lifecycle, transaction status derivation,
transaction posting and account creation logic.

Buffers (block hashes, transaction hashes, asset ids, nullifiers, keys) are
encoded as natural numbers; JavaScript number and bigint values are encoded
as integers; JavaScript truthiness on nullable numbers is made explicit via
jsTruthyInt. External collaborators (chain store, worker pool, database) are
passed in as explicit data, and the per account database operations invoked
by the orchestrator are recorded as an operation log.
-/

namespace IronfishWallet

/-- Head pointer with fields hash and sequence, as used for the per account
head and for the chain processor cursor. -/
structure Head where
  hash : Nat
  sequence : Int
deriving DecidableEq

/-- Truthiness of a nullable JavaScript number: falsy exactly when it is
null or zero. -/
def jsTruthyInt : Option Int → Bool
  | none => false
  | some v => v != 0

/-- A decrypted unspent note as yielded by the account iterator
getUnspentNotes: note value, leaf index in the note commitment tree,
nullifier, and the note hash under which it is stored. -/
structure UnspentNote where
  value : Int
  index : Option Nat
  nullifier : Option Nat
  hash : Nat
deriving DecidableEq

/-- The chain state read by the spend selector: the on chain nullifier set
and the set of leaf indices for which chain.notes.witness succeeds. -/
structure SpendChain where
  nullifiers : List Nat
  witnessIndices : List Nat
deriving DecidableEq

/-- Embedding of chain.notes.witness: a witness is available exactly for the
indices listed in witnessIndices, and the produced witness is represented by
the index it authenticates. -/
def chainWitness (chain : SpendChain) (index : Nat) : Option Nat :=
  if chain.witnessIndices.contains index then some index else none

/-- Embedding of Wallet.checkNoteOnChainAndRepair: returns false when the
note has no nullifier, otherwise reports whether the nullifier is already in
the chain nullifier set; when true the caller records the note as spent and
skips it. -/
def checkNoteOnChainAndRepair (chain : SpendChain) (note : UnspentNote) : Bool :=
  match note.nullifier with
  | none => false
  | some nf => chain.nullifiers.contains nf

/-- Failure of one of the Assert.isNotNull calls inside
createSpendsForAsset. -/
inductive SpendError where
  | assertFailed
deriving DecidableEq

/-- Result of createSpendsForAsset: the accumulated amount, the selected
(note, witness) pairs in selection order, and the hashes of notes that the
repair check marked spent. -/
structure SpendResult where
  amount : Int
  notes : List (UnspentNote × Nat)
  markedSpent : List Nat
deriving DecidableEq

/-- Loop body of Wallet.createSpendsForAsset over the remaining unspent
notes, carrying the accumulated amount, the selected notes and the hashes
marked spent by the repair check. Mirrors the source order: skip notes with
value at most zero, assert index and nullifier are not null, skip and mark
notes whose nullifier is already on chain, skip notes without a witness,
otherwise select the note and stop once the amount reaches the target. -/
def createSpendsForAssetGo (chain : SpendChain) (amountNeeded : Int) :
    List UnspentNote → Int → List (UnspentNote × Nat) → List Nat →
    Except SpendError SpendResult
  | [], amount, notes, marked => .ok ⟨amount, notes, marked⟩
  | n :: rest, amount, notes, marked =>
    if n.value ≤ 0 then
      createSpendsForAssetGo chain amountNeeded rest amount notes marked
    else
      match n.index, n.nullifier with
      | none, _ => .error .assertFailed
      | some _, none => .error .assertFailed
      | some idx, some _ =>
        if checkNoteOnChainAndRepair chain n then
          createSpendsForAssetGo chain amountNeeded rest amount notes (marked ++ [n.hash])
        else
          match chainWitness chain idx with
          | none => createSpendsForAssetGo chain amountNeeded rest amount notes marked
          | some w =>
            if amountNeeded ≤ amount + n.value then
              .ok ⟨amount + n.value, notes ++ [(n, w)], marked⟩
            else
              createSpendsForAssetGo chain amountNeeded rest (amount + n.value)
                (notes ++ [(n, w)]) marked

/-- Embedding of Wallet.createSpendsForAsset: run the selection loop over
the unspent notes of the account for one asset, starting from zero. -/
def createSpendsForAsset (chain : SpendChain) (unspentNotes : List UnspentNote)
    (amountNeeded : Int) : Except SpendError SpendResult :=
  createSpendsForAssetGo chain amountNeeded unspentNotes 0 [] []

/-- Errors surfaced by createSpends: an assertion failure from the inner
loop, or NotEnoughFundsError carrying the asset id, the accumulated amount
and the required amount. -/
inductive CreateSpendsError where
  | assertFailed
  | notEnoughFunds (assetId : Nat) (amount : Int) (amountNeeded : Int)
deriving DecidableEq

/-- Embedding of Wallet.createSpends: for each (assetId, amountNeeded) entry
run createSpendsForAsset on the unspent notes of that asset, throw
NotEnoughFundsError when the accumulated amount is below the target, and
concatenate the selected notes otherwise. -/
def createSpends (chain : SpendChain) (unspent : Nat → List UnspentNote) :
    List (Nat × Int) → Except CreateSpendsError (List (UnspentNote × Nat))
  | [] => .ok []
  | (assetId, amountNeeded) :: rest =>
    match createSpendsForAsset chain (unspent assetId) amountNeeded with
    | .error .assertFailed => .error .assertFailed
    | .ok r =>
      if r.amount < amountNeeded then
        .error (.notEnoughFunds assetId r.amount amountNeeded)
      else
        match createSpends chain unspent rest with
        | .error e => .error e
        | .ok notes => .ok (r.notes ++ notes)

/-- Example chain for the spend selector: empty nullifier set, a witness
available for leaf index five. -/
def exChain : SpendChain := ⟨[], [5]⟩

/-- Example mined unspent note of value seven at leaf index five. -/
def exNote : UnspentNote := ⟨7, some 5, some 9, 2⟩

/-- Example unspent note iterator: every asset id yields exactly exNote. -/
def exUnspent : Nat → List UnspentNote := fun _ => [exNote]

/-- Example unmined note: positive value but null index and null
nullifier. -/
def exBadNote : UnspentNote := ⟨7, none, none, 1⟩

/-- Claim C1: the spend selector iterates the unspent notes of the account,
skipping notes with value at most zero, skipping (and marking spent) notes
whose nullifier is already in the chain nullifier set, skipping notes for
which no witness can be produced, accumulating note values and stopping as
soon as the accumulated amount reaches the required amount; and when the
accumulated amount stays below the requirement, createSpends fails with
NotEnoughFunds carrying the asset id, the accumulated amount and the
required amount. -/
theorem createSpends_selector_spec :
    (∀ (chain : SpendChain) (need : Int) (n : UnspentNote) (rest : List UnspentNote)
        (amount : Int) (notes : List (UnspentNote × Nat)) (marked : List Nat),
      n.value ≤ 0 →
      createSpendsForAssetGo chain need (n :: rest) amount notes marked =
        createSpendsForAssetGo chain need rest amount notes marked) ∧
    (∀ (chain : SpendChain) (need value : Int) (idx nf hsh : Nat)
        (rest : List UnspentNote) (amount : Int) (notes : List (UnspentNote × Nat))
        (marked : List Nat),
      0 < value →
      chain.nullifiers.contains nf = true →
      createSpendsForAssetGo chain need (⟨value, some idx, some nf, hsh⟩ :: rest)
          amount notes marked =
        createSpendsForAssetGo chain need rest amount notes (marked ++ [hsh])) ∧
    (∀ (chain : SpendChain) (need value : Int) (idx nf hsh : Nat)
        (rest : List UnspentNote) (amount : Int) (notes : List (UnspentNote × Nat))
        (marked : List Nat),
      0 < value →
      chain.nullifiers.contains nf = false →
      chainWitness chain idx = none →
      createSpendsForAssetGo chain need (⟨value, some idx, some nf, hsh⟩ :: rest)
          amount notes marked =
        createSpendsForAssetGo chain need rest amount notes marked) ∧
    (∀ (chain : SpendChain) (need value : Int) (idx nf hsh : Nat)
        (rest : List UnspentNote) (amount : Int) (notes : List (UnspentNote × Nat))
        (marked : List Nat) (w : Nat),
      0 < value →
      chain.nullifiers.contains nf = false →
      chainWitness chain idx = some w →
      createSpendsForAssetGo chain need (⟨value, some idx, some nf, hsh⟩ :: rest)
          amount notes marked =
        (if need ≤ amount + value then
          Except.ok ⟨amount + value, notes ++ [(⟨value, some idx, some nf, hsh⟩, w)], marked⟩
        else
          createSpendsForAssetGo chain need rest (amount + value)
            (notes ++ [(⟨value, some idx, some nf, hsh⟩, w)]) marked)) ∧
    (∀ (chain : SpendChain) (unspent : Nat → List UnspentNote) (assetId : Nat)
        (need : Int) (r : SpendResult),
      createSpendsForAsset chain (unspent assetId) need = .ok r →
      r.amount < need →
      createSpends chain unspent [(assetId, need)] =
        .error (.notEnoughFunds assetId r.amount need)) ∧
    (∀ (chain : SpendChain) (unspent : Nat → List UnspentNote) (assetId : Nat)
        (need : Int) (r : SpendResult),
      createSpendsForAsset chain (unspent assetId) need = .ok r →
      need ≤ r.amount →
      createSpends chain unspent [(assetId, need)] = .ok r.notes) := by
  refine ⟨?_, ?_, ?_, ?_, ?_, ?_⟩
  · intro chain need n rest amount notes marked hval
    simp [createSpendsForAssetGo, hval]
  · intro chain need value idx nf hsh rest amount notes marked hval hnf
    have hv : ¬ value ≤ 0 := by omega
    have hm : nf ∈ chain.nullifiers := by simpa using hnf
    simp [createSpendsForAssetGo, checkNoteOnChainAndRepair, hv, hm]
  · intro chain need value idx nf hsh rest amount notes marked hval hnf hwit
    have hv : ¬ value ≤ 0 := by omega
    have hm : nf ∉ chain.nullifiers := by simpa using hnf
    simp [createSpendsForAssetGo, checkNoteOnChainAndRepair, hv, hm, hwit]
  · intro chain need value idx nf hsh rest amount notes marked w hval hnf hwit
    have hv : ¬ value ≤ 0 := by omega
    have hm : nf ∉ chain.nullifiers := by simpa using hnf
    simp [createSpendsForAssetGo, checkNoteOnChainAndRepair, hv, hm, hwit]
  · intro chain unspent assetId need r hok hlt
    simp [createSpends, hok, hlt]
  · intro chain unspent assetId need r hok hge
    have hn : ¬ r.amount < need := by omega
    simp [createSpends, hok, hn]

/-- Witness for C1: with a single unspent note worth seven and a requirement
of ten the selector accumulates seven and createSpends fails with
NotEnoughFunds for that asset, carrying seven and ten. -/
theorem createSpends_selector_spec_witness :
    createSpends exChain exUnspent [(1, 10)] =
      .error (.notEnoughFunds 1 7 10) :=
  createSpends_selector_spec.2.2.2.2.1 exChain exUnspent 1 10
    ⟨7, [(exNote, 5)], []⟩ rfl (by decide)

/-- Claim C2 counterexample: a candidate note with positive value whose
index and nullifier are null is not skipped; the selector raises an
assertion failure, while skipping it would have produced the successful
selection of the following note. -/
theorem createSpendsForAsset_null_index_asserts :
    createSpendsForAsset exChain [exBadNote, exNote] 7 = .error .assertFailed ∧
    createSpendsForAsset exChain [exNote] 7 = .ok ⟨7, [(exNote, 5)], []⟩ ∧
    (Except.error SpendError.assertFailed :
        Except SpendError SpendResult) ≠ .ok ⟨7, [(exNote, 5)], []⟩ :=
  ⟨rfl, rfl, fun h => Except.noConfusion h⟩

/-- Claim C2 (amended): for every candidate unspent note with positive value
whose index or nullifier is null, the selector raises an assertion failure
(Assert.isNotNull) instead of skipping it; only notes with value at most
zero are skipped before the assertions run. -/
theorem createSpendsForAsset_null_index_amended
    (chain : SpendChain) (need value : Int) (idxOpt nfOpt : Option Nat) (hsh : Nat)
    (rest : List UnspentNote) (amount : Int) (notes : List (UnspentNote × Nat))
    (marked : List Nat) (hval : 0 < value) (hnull : idxOpt = none ∨ nfOpt = none) :
    createSpendsForAssetGo chain need (⟨value, idxOpt, nfOpt, hsh⟩ :: rest)
        amount notes marked = .error .assertFailed := by
  have hv : ¬ value ≤ 0 := by omega
  cases idxOpt with
  | none =>
    cases nfOpt with
    | none => simp [createSpendsForAssetGo, hv]
    | some nf => simp [createSpendsForAssetGo, hv]
  | some idx =>
    cases nfOpt with
    | none => simp [createSpendsForAssetGo, hv]
    | some nf => rcases hnull with h | h <;> simp at h

/-- Witness for the amended C2: the selector fails with an assertion error
on a concrete unmined note encountered mid iteration. -/
theorem createSpendsForAsset_null_index_amended_witness :
    createSpendsForAssetGo exChain 7 (⟨7, none, none, 1⟩ :: [exNote]) 0 [] [] =
      .error .assertFailed :=
  createSpendsForAsset_null_index_amended exChain 7 7 none none 1 [exNote] 0 [] []
    (by decide) (Or.inl rfl)

/-- Block header fields read by the connect and disconnect pipeline. -/
structure BlockHeaderM where
  hash : Nat
  previousBlockHash : Nat
  sequence : Int
deriving DecidableEq

/-- A block transaction as returned by chain.getBlockTransactions, reduced
to the fields the orchestrator reads: its hash and whether it is a miners
fee transaction. -/
structure BlockTx where
  hash : Nat
  isMinersFee : Bool
deriving DecidableEq

/-- Database operations the orchestrator invokes on an account; the account
internals live outside this file, so the calls are recorded as a log. -/
inductive AccountOp where
  | connectTx (txHash : Nat)
  | disconnectTx (txHash : Nat)
  | deleteTx (txHash : Nat)
  | updateHead (head : Option Head)
deriving DecidableEq

/-- Observable state of one account: its head pointer and the log of
operations applied to it, in order. -/
structure AccountState where
  head : Option Head
  ops : List AccountOp
deriving DecidableEq

/-- Apply one account operation: updateHead moves the head pointer, every
operation is appended to the log. -/
def applyOp (st : AccountState) (op : AccountOp) : AccountState :=
  match op with
  | .updateHead h => { head := h, ops := st.ops ++ [op] }
  | _ => { st with ops := st.ops ++ [op] }

/-- Account filter of Wallet.connectBlock: an account participates when its
head is null and the block has sequence one, or when its head hash equals
the previous block hash of the header. -/
def connectAccountFilter (header : BlockHeaderM) (st : AccountState) : Bool :=
  match st.head with
  | none => header.sequence == 1
  | some h => h.hash == header.previousBlockHash

/-- Per account body of Wallet.connectBlock: in block order, connect every
transaction for which note decryption produced notes for this account, then
update the head to the hash and sequence of the header; the whole update is
one WalletDB transaction, modelled as a single state change. -/
def connectBlockAccount (header : BlockHeaderM) (txs : List BlockTx)
    (decrypts : Nat → Bool) (st : AccountState) : AccountState :=
  applyOp
    (txs.foldl (fun s t => if decrypts t.hash then applyOp s (.connectTx t.hash) else s) st)
    (.updateHead (some ⟨header.hash, header.sequence⟩))

/-- Point update of the account store at one account id. -/
def updateStore (store : Nat → AccountState) (id : Nat) (v : AccountState) :
    Nat → AccountState :=
  fun j => if j = id then v else store j

/-- Sequential processing of a list of account ids: each account in the list
is replaced by the result of its handler, as the for loops over filtered
accounts do in the source. -/
def processAccounts (f : Nat → AccountState → AccountState) :
    List Nat → (Nat → AccountState) → Nat → AccountState
  | [], store => store
  | id :: rest, store =>
    processAccounts f rest (updateStore store id (f id (store id)))

/-- Embedding of Wallet.connectBlock: filter the loaded accounts by
connectAccountFilter against the current store, then process each matching
account with connectBlockAccount. -/
def connectBlock (header : BlockHeaderM) (txs : List BlockTx)
    (decrypts : Nat → Nat → Bool) (accountIds : List Nat)
    (store : Nat → AccountState) : Nat → AccountState :=
  processAccounts (fun id st => connectBlockAccount header txs (decrypts id) st)
    (accountIds.filter fun id => connectAccountFilter header (store id)) store

/-- Account filter of Wallet.disconnectBlock: an account participates
exactly when its head hash equals the header hash; a null head never
matches. -/
def disconnectAccountFilter (header : BlockHeaderM) (st : AccountState) : Bool :=
  match st.head with
  | none => false
  | some h => h.hash == header.hash

/-- One step of the disconnect loop: disconnect the transaction, and delete
it additionally when it is a miners fee. -/
def disconnectTxStep (s : AccountState) (t : BlockTx) : AccountState :=
  let s1 := applyOp s (.disconnectTx t.hash)
  if t.isMinersFee then applyOp s1 (.deleteTx t.hash) else s1

/-- The disconnect loop over an already reversed transaction list. -/
def disconnectRun : AccountState → List BlockTx → AccountState
  | st, [] => st
  | st, t :: rest => disconnectRun (disconnectTxStep st t) rest

/-- Per account body of Wallet.disconnectBlock: iterate the block
transactions in reverse order through the disconnect loop, then set the
head to the previous block hash with sequence one less; the whole update is
one WalletDB transaction, modelled as a single state change. -/
def disconnectBlockAccount (header : BlockHeaderM) (txs : List BlockTx)
    (st : AccountState) : AccountState :=
  applyOp (disconnectRun st txs.reverse)
    (.updateHead (some ⟨header.previousBlockHash, header.sequence - 1⟩))

/-- Embedding of Wallet.disconnectBlock: filter the loaded accounts by
disconnectAccountFilter, then process each matching account with
disconnectBlockAccount. -/
def disconnectBlock (header : BlockHeaderM) (txs : List BlockTx)
    (accountIds : List Nat) (store : Nat → AccountState) : Nat → AccountState :=
  processAccounts (fun _ st => disconnectBlockAccount header txs st)
    (accountIds.filter fun id => disconnectAccountFilter header (store id)) store

/-- Operation log produced by the disconnect loop for a transaction list in
iteration order: disconnect each transaction, deleting miners fee
transactions on top. -/
def opsConcat : List BlockTx → List AccountOp
  | [] => []
  | t :: rest =>
    (AccountOp.disconnectTx t.hash ::
      (if t.isMinersFee then [AccountOp.deleteTx t.hash] else [])) ++ opsConcat rest

/-- Complete operation log of one account under disconnectBlock: the
reversed transaction loop followed by the head update. -/
def disconnectOps (header : BlockHeaderM) (txs : List BlockTx) : List AccountOp :=
  opsConcat txs.reverse ++
    [AccountOp.updateHead (some ⟨header.previousBlockHash, header.sequence - 1⟩)]

theorem processAccounts_apply (f : Nat → AccountState → AccountState) (j : Nat) :
    ∀ (ids : List Nat) (store : Nat → AccountState), ids.Nodup →
      processAccounts f ids store j = if j ∈ ids then f j (store j) else store j := by
  intro ids
  induction ids with
  | nil =>
    intro store _
    simp [processAccounts]
  | cons id rest ih =>
    intro store hnd
    have hid : id ∉ rest := (List.nodup_cons.mp hnd).1
    have hnd2 : rest.Nodup := (List.nodup_cons.mp hnd).2
    have hstep :
        processAccounts f (id :: rest) store =
          processAccounts f rest (updateStore store id (f id (store id))) := rfl
    rw [hstep, ih _ hnd2]
    by_cases hj : j = id
    · subst hj
      simp [updateStore, hid, List.mem_cons]
    · by_cases hr : j ∈ rest
      · simp [updateStore, hj, hr, List.mem_cons]
      · simp [updateStore, hj, hr, List.mem_cons]

theorem disconnectRun_spec : ∀ (txsR : List BlockTx) (st : AccountState),
    disconnectRun st txsR = ⟨st.head, st.ops ++ opsConcat txsR⟩ := by
  intro txsR
  induction txsR with
  | nil =>
    intro st
    simp [disconnectRun, opsConcat]
  | cons t rest ih =>
    intro st
    have hstep : disconnectRun st (t :: rest) = disconnectRun (disconnectTxStep st t) rest := rfl
    rw [hstep, ih]
    by_cases hm : t.isMinersFee
    · simp [disconnectTxStep, applyOp, opsConcat, hm]
    · simp [disconnectTxStep, applyOp, opsConcat, hm]

/-- Claim C3: connectBlock applies the block transactions and advances the
head to the header hash and sequence exactly for the accounts whose head
hash equals the previous block hash of the header, or whose head is null
when the header sequence is one; every other account is left unchanged. -/
theorem connectBlock_spec :
    (∀ (header : BlockHeaderM) (st : AccountState),
      connectAccountFilter header st = true ↔
        (st.head = none ∧ header.sequence = 1) ∨
        (∃ h, st.head = some h ∧ h.hash = header.previousBlockHash)) ∧
    (∀ (header : BlockHeaderM) (txs : List BlockTx) (decrypts : Nat → Nat → Bool)
        (ids : List Nat) (store : Nat → AccountState) (j : Nat), ids.Nodup →
      connectBlock header txs decrypts ids store j =
        if j ∈ ids ∧ connectAccountFilter header (store j) = true then
          connectBlockAccount header txs (decrypts j) (store j)
        else store j) ∧
    (∀ (header : BlockHeaderM) (txs : List BlockTx) (d : Nat → Bool)
        (st : AccountState),
      (connectBlockAccount header txs d st).head =
        some ⟨header.hash, header.sequence⟩) := by
  refine ⟨?_, ?_, ?_⟩
  · intro header st
    cases hh : st.head with
    | none => simp [connectAccountFilter, hh]
    | some h => simp [connectAccountFilter, hh]
  · intro header txs decrypts ids store j hnd
    simp only [connectBlock]
    rw [processAccounts_apply _ j _ _ (hnd.filter _)]
    by_cases hmem : j ∈ ids ∧ connectAccountFilter header (store j) = true
    · rw [if_pos (List.mem_filter.mpr ⟨hmem.1, hmem.2⟩), if_pos hmem]
    · rw [if_neg (fun hc => hmem (List.mem_filter.mp hc)), if_neg hmem]
  · intro header txs d st
    rfl

/-- Witness for C3: one loaded account with a null head is connected to the
sequence one block by connectBlock. -/
theorem connectBlock_spec_witness :
    connectBlock ⟨10, 0, 1⟩ [⟨100, true⟩] (fun _ _ => true) [0]
        (fun _ => ⟨none, []⟩) 0 =
      connectBlockAccount ⟨10, 0, 1⟩ [⟨100, true⟩] (fun _ => true)
        ⟨none, []⟩ := by
  rw [connectBlock_spec.2.1 ⟨10, 0, 1⟩ [⟨100, true⟩] (fun _ _ => true) [0]
    (fun _ => ⟨none, []⟩) 0 (by decide)]
  rw [if_pos ⟨by decide, by decide⟩]

/-- Claim C4: for every account whose head hash equals the header hash,
disconnectBlock runs the block transactions in reverse order through
disconnectTransaction, additionally deletes miners fee transactions, and
sets the head to the previous block hash with sequence one less, in one
database transaction per account; every other account is left unchanged. -/
theorem disconnectBlock_spec :
    (∀ (header : BlockHeaderM) (st : AccountState),
      disconnectAccountFilter header st = true ↔
        (∃ h, st.head = some h ∧ h.hash = header.hash)) ∧
    (∀ (header : BlockHeaderM) (txs : List BlockTx) (ids : List Nat)
        (store : Nat → AccountState) (j : Nat), ids.Nodup →
      disconnectBlock header txs ids store j =
        if j ∈ ids ∧ disconnectAccountFilter header (store j) = true then
          disconnectBlockAccount header txs (store j)
        else store j) ∧
    (∀ (header : BlockHeaderM) (txs : List BlockTx) (st : AccountState),
      disconnectBlockAccount header txs st =
        ⟨some ⟨header.previousBlockHash, header.sequence - 1⟩,
          st.ops ++ disconnectOps header txs⟩) := by
  refine ⟨?_, ?_, ?_⟩
  · intro header st
    cases hh : st.head with
    | none => simp [disconnectAccountFilter, hh]
    | some h => simp [disconnectAccountFilter, hh]
  · intro header txs ids store j hnd
    simp only [disconnectBlock]
    rw [processAccounts_apply _ j _ _ (hnd.filter _)]
    by_cases hmem : j ∈ ids ∧ disconnectAccountFilter header (store j) = true
    · rw [if_pos (List.mem_filter.mpr ⟨hmem.1, hmem.2⟩), if_pos hmem]
    · rw [if_neg (fun hc => hmem (List.mem_filter.mp hc)), if_neg hmem]
  · intro header txs st
    show applyOp (disconnectRun st txs.reverse) _ = _
    rw [disconnectRun_spec]
    simp [applyOp, disconnectOps]

/-- Witness for C4: an account whose head sits on the disconnected block is
rewound by disconnectBlock. -/
theorem disconnectBlock_spec_witness :
    disconnectBlock ⟨20, 19, 5⟩ [⟨100, true⟩, ⟨101, false⟩] [0]
        (fun _ => ⟨some ⟨20, 5⟩, []⟩) 0 =
      disconnectBlockAccount ⟨20, 19, 5⟩ [⟨100, true⟩, ⟨101, false⟩]
        ⟨some ⟨20, 5⟩, []⟩ := by
  rw [disconnectBlock_spec.2.1 ⟨20, 19, 5⟩ [⟨100, true⟩, ⟨101, false⟩] [0]
    (fun _ => ⟨some ⟨20, 5⟩, []⟩) 0 (by decide)]
  rw [if_pos ⟨by decide, by decide⟩]

/-- Key material of one account as read by decryptNotes. -/
structure AccountKeys where
  incomingViewKey : Nat
  outgoingViewKey : Nat
  spendingKey : Nat
deriving DecidableEq

/-- One payload handed to workerPool.decryptNotes. -/
structure DecryptNotePayload where
  serializedNote : Nat
  incomingViewKey : Nat
  outgoingViewKey : Nat
  spendingKey : Nat
  currentNoteIndex : Option Int
deriving DecidableEq

/-- Payload construction loop of Wallet.decryptNotes for one account: one
payload per transaction note in order, carrying the running
currentNoteIndex, which is then incremented only when it is truthy as a
JavaScript number, exactly as the source line if (currentNoteIndex)
currentNoteIndex++ does. Batching only groups the worker pool submissions
and does not change the payload contents. -/
def buildDecryptPayloads (account : AccountKeys) :
    List Nat → Option Int → List DecryptNotePayload
  | [], _ => []
  | note :: rest, currentNoteIndex =>
    { serializedNote := note
      incomingViewKey := account.incomingViewKey
      outgoingViewKey := account.outgoingViewKey
      spendingKey := account.spendingKey
      currentNoteIndex := currentNoteIndex } ::
    buildDecryptPayloads account rest
      (if jsTruthyInt currentNoteIndex then Option.map (fun v => v + 1) currentNoteIndex
       else currentNoteIndex)

/-- Claim C5 evidence: with initialNoteIndex equal to zero the truthiness
guard never fires, so every payload carries currentNoteIndex zero instead of
the consecutive indices the claim requires; with initialNoteIndex one the
indices do increment per note, and with a null initialNoteIndex every
payload carries null. -/
theorem buildDecryptPayloads_zero_initial_index :
    (buildDecryptPayloads ⟨1, 2, 3⟩ [10, 11] (some 0)).map
        (fun p => p.currentNoteIndex) = [some 0, some 0] ∧
    ([some 0, some 0] : List (Option Int)) ≠ [some 0, some 1] ∧
    (buildDecryptPayloads ⟨1, 2, 3⟩ [10, 11] (some 1)).map
        (fun p => p.currentNoteIndex) = [some 1, some 2] ∧
    (buildDecryptPayloads ⟨1, 2, 3⟩ [10, 11] none).map
        (fun p => p.currentNoteIndex) = [none, none] :=
  ⟨rfl, by decide, rfl, rfl⟩

/-- A pending transaction record as seen by rebroadcastTransactions. -/
structure PendingTxInfo where
  txHash : Nat
  blockHash : Option Nat
  submittedSequence : Int
deriving DecidableEq

/-- Per transaction body of Wallet.rebroadcastTransactions at head sequence
headSequence: records already on a block are skipped, records submitted
fewer than rebroadcastAfter blocks ago are skipped, otherwise the
submittedSequence is persisted as headSequence regardless of the verifier
verdict and the broadcast event fires exactly when the verifier reports the
transaction valid. The returned flag records whether broadcast fired. -/
def rebroadcastStep (rebroadcastAfter headSequence : Int) (valid : Bool)
    (t : PendingTxInfo) : PendingTxInfo × Bool :=
  if t.blockHash.isSome then (t, false)
  else if headSequence - t.submittedSequence < rebroadcastAfter then (t, false)
  else ({ t with submittedSequence := headSequence }, valid)

/-- Claim C6: a record with a block hash is skipped entirely; a record
within rebroadcastAfter blocks of its submission is skipped entirely;
otherwise submittedSequence becomes the head sequence regardless of
validity and broadcast fires exactly when the verifier reports valid;
consequently, for a nonnegative rebroadcastAfter the submittedSequence
never decreases, and two broadcasts of the same record are always at least
rebroadcastAfter blocks apart. -/
theorem rebroadcastTransactions_spec :
    (∀ (after h : Int) (v : Bool) (t : PendingTxInfo) (b : Nat),
      t.blockHash = some b → rebroadcastStep after h v t = (t, false)) ∧
    (∀ (after h : Int) (v : Bool) (t : PendingTxInfo),
      t.blockHash = none → h - t.submittedSequence < after →
      rebroadcastStep after h v t = (t, false)) ∧
    (∀ (after h : Int) (v : Bool) (t : PendingTxInfo),
      t.blockHash = none → after ≤ h - t.submittedSequence →
      rebroadcastStep after h v t = ({ t with submittedSequence := h }, v)) ∧
    (∀ (after h : Int) (v : Bool) (t : PendingTxInfo), 0 ≤ after →
      t.submittedSequence ≤ (rebroadcastStep after h v t).1.submittedSequence) ∧
    (∀ (after h1 h2 : Int) (v1 v2 : Bool) (t : PendingTxInfo),
      (rebroadcastStep after h1 v1 t).2 = true →
      (rebroadcastStep after h2 v2 (rebroadcastStep after h1 v1 t).1).2 = true →
      after ≤ h2 - h1) := by
  refine ⟨?_, ?_, ?_, ?_, ?_⟩
  · intro after h v t b hb
    simp [rebroadcastStep, hb]
  · intro after h v t hb hlt
    simp [rebroadcastStep, hb, hlt]
  · intro after h v t hb hge
    have hn : ¬ h - t.submittedSequence < after := by omega
    simp [rebroadcastStep, hb, hn]
  · intro after h v t hge
    cases hob : t.blockHash with
    | some b => simp [rebroadcastStep, hob]
    | none =>
      by_cases hlt : h - t.submittedSequence < after
      · simp [rebroadcastStep, hob, hlt]
      · simp only [rebroadcastStep, hob, Option.isSome_none, Bool.false_eq_true,
          if_false, if_neg hlt]
        omega
  · intro after h1 h2 v1 v2 t hb1 hb2
    obtain ⟨tx, bh, sub⟩ := t
    cases bh with
    | some b => simp [rebroadcastStep] at hb1
    | none =>
      by_cases hlt : h1 - sub < after
      · simp [rebroadcastStep, hlt] at hb1
      · have hfst : (rebroadcastStep after h1 v1 ⟨tx, none, sub⟩).1 = ⟨tx, none, h1⟩ := by
          simp [rebroadcastStep, hlt]
        rw [hfst] at hb2
        by_cases hlt2 : h2 - h1 < after
        · simp [rebroadcastStep, hlt2] at hb2
        · omega

/-- Witness for C6: a pending record submitted at sequence eighty is
rebroadcast at head sequence one hundred with rebroadcastAfter ten, and its
submittedSequence advances to one hundred. -/
theorem rebroadcastTransactions_spec_witness :
    rebroadcastStep 10 100 true ⟨1, none, 80⟩ = (⟨1, none, 100⟩, true) :=
  rebroadcastTransactions_spec.2.2.1 10 100 true ⟨1, none, 80⟩ rfl (by decide)

/-- Transaction status labels of the wallet. -/
inductive TransactionStatus where
  | confirmed
  | expired
  | pending
  | unconfirmed
  | unknown
deriving DecidableEq

/-- The fields of a stored TransactionValue read by getTransactionStatus:
the mined sequence (null while pending) and the expiration sequence. -/
structure TransactionValueM where
  sequence : Option Int
  expiration : Int
deriving DecidableEq

/-- Modelled from the spec: isExpiredSequence is imported from
../consensus, which is outside the provided sources; the spec states that
an unmined transaction is expired when it is past its expiration, with
expiration exactly equal to the head sequence counting as expired. -/
def isExpiredSequence (expiration headSequence : Int) : Bool :=
  decide (expiration ≤ headSequence)

/-- Embedding of Wallet.getTransactionStatus: unknown when the resolved
head sequence is falsy, otherwise confirmed or unconfirmed by depth for a
mined transaction, and expired or pending by expiration for an unmined
one. -/
def getTransactionStatus (confirmations : Int) (headSequence : Option Int)
    (t : TransactionValueM) : TransactionStatus :=
  if jsTruthyInt headSequence then
    if jsTruthyInt t.sequence then
      if confirmations ≤ headSequence.getD 0 - t.sequence.getD 0 then .confirmed
      else .unconfirmed
    else
      if isExpiredSequence t.expiration (headSequence.getD 0) then .expired
      else .pending
  else .unknown

/-- Claim C7: with block sequences at least one, getTransactionStatus
returns unknown without a head sequence, confirmed exactly at depth at
least confirmations for a mined transaction and unconfirmed below that
depth, and expired for an unmined transaction exactly when the expiration
has passed, head sequence equal to the expiration included, pending
otherwise. -/
theorem getTransactionStatus_spec :
    (∀ (c : Int) (t : TransactionValueM),
      getTransactionStatus c none t = .unknown) ∧
    (∀ (c h s : Int) (t : TransactionValueM), 1 ≤ h → t.sequence = some s → 1 ≤ s →
      ((c ≤ h - s → getTransactionStatus c (some h) t = .confirmed) ∧
       (h - s < c → getTransactionStatus c (some h) t = .unconfirmed))) ∧
    (∀ (c h : Int) (t : TransactionValueM), 1 ≤ h → t.sequence = none →
      ((t.expiration ≤ h → getTransactionStatus c (some h) t = .expired) ∧
       (h < t.expiration → getTransactionStatus c (some h) t = .pending))) := by
  refine ⟨?_, ?_, ?_⟩
  · intro c t
    simp [getTransactionStatus, jsTruthyInt]
  · intro c h s t hh hseq hs
    have hht : jsTruthyInt (some h) = true := by
      simp only [jsTruthyInt, bne_iff_ne, ne_eq]
      omega
    have hst : jsTruthyInt (some s) = true := by
      simp only [jsTruthyInt, bne_iff_ne, ne_eq]
      omega
    constructor
    · intro hc
      simp [getTransactionStatus, hseq, hht, hst, hc]
    · intro hc
      have hn : ¬ c ≤ h - s := by omega
      simp [getTransactionStatus, hseq, hht, hst, hn]
  · intro c h t hh hseq
    have hht : jsTruthyInt (some h) = true := by
      simp only [jsTruthyInt, bne_iff_ne, ne_eq]
      omega
    have h0 : jsTruthyInt none = false := rfl
    constructor
    · intro hexp
      simp [getTransactionStatus, hseq, hht, h0, isExpiredSequence, hexp]
    · intro hexp
      have hn : ¬ t.expiration ≤ h := by omega
      simp [getTransactionStatus, hseq, hht, h0, isExpiredSequence, hn]

/-- Witness for C7: a transaction mined at sequence five is confirmed at
head ten with two confirmations, and an unmined transaction whose
expiration equals the head sequence is expired, not pending. -/
theorem getTransactionStatus_spec_witness :
    getTransactionStatus 2 (some 10) ⟨some 5, 0⟩ = .confirmed ∧
    getTransactionStatus 2 (some 10) ⟨none, 10⟩ = .expired :=
  ⟨(getTransactionStatus_spec.2.1 2 10 5 ⟨some 5, 0⟩ (by decide) rfl (by decide)).1
      (by decide),
   (getTransactionStatus_spec.2.2 2 10 ⟨none, 10⟩ (by decide) rfl).1 (by decide)⟩

/-- The observable side effects of postTransaction after verification
succeeds, in the order the source performs them. -/
inductive PostEffect where
  | addPending (tx : Nat)
  | acceptTransaction (tx : Nat)
  | broadcastTransaction (tx : Nat)
  | transactionCreated (tx : Nat)
deriving DecidableEq

/-- The error thrown by postTransaction when the verifier rejects the
posted transaction. -/
inductive PostError where
  | invalidTransaction
deriving DecidableEq

/-- Embedding of Wallet.postTransaction: the worker pool result is the
posted transaction, verifyCreatedTransaction is the given predicate, and on
success the pending add, the mempool accept, the broadcast event and the
created event happen in order; on failure the call throws before any
effect. -/
def postTransaction (verifyValid : Nat → Bool) (postedTransaction : Nat) :
    Except PostError (Nat × List PostEffect) :=
  if verifyValid postedTransaction = false then .error .invalidTransaction
  else
    .ok (postedTransaction,
      [.addPending postedTransaction, .acceptTransaction postedTransaction,
       .broadcastTransaction postedTransaction, .transactionCreated postedTransaction])

/-- Claim C8: when the verifier reports the posted transaction invalid,
postTransaction throws and performs none of its effects; when it reports it
valid, the pending add, the mempool accept, the broadcast event and the
created event all occur. -/
theorem postTransaction_spec :
    (∀ (verifyValid : Nat → Bool) (tx : Nat), verifyValid tx = false →
      postTransaction verifyValid tx = .error .invalidTransaction) ∧
    (∀ (verifyValid : Nat → Bool) (tx : Nat), verifyValid tx = true →
      postTransaction verifyValid tx =
        .ok (tx, [.addPending tx, .acceptTransaction tx,
          .broadcastTransaction tx, .transactionCreated tx])) := by
  constructor
  · intro v tx hv
    simp [postTransaction, hv]
  · intro v tx hv
    simp [postTransaction, hv]

/-- Witness for C8: a rejecting verifier makes postTransaction throw, an
accepting verifier yields all four effects. -/
theorem postTransaction_spec_witness :
    postTransaction (fun _ => false) 5 = .error .invalidTransaction ∧
    postTransaction (fun _ => true) 5 =
      .ok (5, [.addPending 5, .acceptTransaction 5,
        .broadcastTransaction 5, .transactionCreated 5]) :=
  ⟨postTransaction_spec.1 (fun _ => false) 5 rfl,
   postTransaction_spec.2 (fun _ => true) 5 rfl⟩

/-- The running minimum of the head loop in Wallet.getEarliestHeadHash: the
source line keeps the incoming head when the current earliest is null or
has a strictly larger sequence. -/
def earliestMin (earliest : Option Head) (h : Head) : Option Head :=
  match earliest with
  | none => some h
  | some e => if e.sequence > h.sequence then some h else some e

/-- Loop of Wallet.getEarliestHeadHash over the per account heads in load
order: a null head returns null immediately, otherwise the head with the
smallest sequence seen so far is kept and its hash returned at the end. -/
def earliestLoop : List (Option Head) → Option Head → Option Nat
  | [], earliest => Option.map (fun h => h.hash) earliest
  | none :: _, _ => none
  | some h :: rest, earliest => earliestLoop rest (earliestMin earliest h)

/-- Embedding of Wallet.getEarliestHeadHash over the list of per account
heads. -/
def getEarliestHeadHash (heads : List (Option Head)) : Option Nat :=
  earliestLoop heads none

/-- Begin hash selection of Wallet.scanTransactions: fromHash when given,
otherwise the earliest account head hash, otherwise the genesis hash; the
source uses JavaScript truthiness, and a Buffer is truthy exactly when it
is not null. -/
def scanBeginHash (fromHash startHash : Option Nat) (genesisHash : Nat) : Nat :=
  match fromHash with
  | some f => f
  | none =>
    match startHash with
    | some s => s
    | none => genesisHash

theorem earliestLoop_none_mem : ∀ (heads : List (Option Head)) (acc : Option Head),
    none ∈ heads → earliestLoop heads acc = none := by
  intro heads
  induction heads with
  | nil =>
    intro acc h
    simp at h
  | cons oh rest ih =>
    intro acc hmem
    cases oh with
    | none => rfl
    | some h =>
      have hr : none ∈ rest := by
        rcases List.mem_cons.mp hmem with h1 | h1
        · exact absurd h1 (by simp)
        · exact h1
      exact ih _ hr

theorem earliestLoop_min : ∀ (heads : List (Option Head)) (e : Head),
    none ∉ heads →
    ∃ h : Head, earliestLoop heads (some e) = some h.hash ∧
      (some h ∈ heads ∨ h = e) ∧ h.sequence ≤ e.sequence ∧
      (∀ h2 : Head, some h2 ∈ heads → h.sequence ≤ h2.sequence) := by
  intro heads
  induction heads with
  | nil =>
    intro e _
    refine ⟨e, rfl, Or.inr rfl, le_refl _, ?_⟩
    intro h2 hmem
    simp at hmem
  | cons oh rest ih =>
    intro e hnm
    cases oh with
    | none => exact absurd (List.mem_cons_self _ _) hnm
    | some h0 =>
      have hnm2 : none ∉ rest := fun hc => hnm (List.mem_cons_of_mem _ hc)
      by_cases hcmp : e.sequence > h0.sequence
      · obtain ⟨h, heq, hmem, hle, hall⟩ := ih h0 hnm2
        refine ⟨h, ?_, ?_, ?_, ?_⟩
        · show earliestLoop rest (earliestMin (some e) h0) = some h.hash
          rw [show earliestMin (some e) h0 = some h0 from by simp [earliestMin, hcmp]]
          exact heq
        · rcases hmem with hm | hm
          · exact Or.inl (List.mem_cons_of_mem _ hm)
          · exact Or.inl (by rw [hm]; exact List.mem_cons_self _ _)
        · omega
        · intro h2 hmem2
          rcases List.mem_cons.mp hmem2 with hm | hm
          · have hh2 : h2 = h0 := by
              injection hm.symm with heq2
              exact heq2.symm
            subst hh2
            omega
          · exact hall h2 hm
      · obtain ⟨h, heq, hmem, hle, hall⟩ := ih e hnm2
        refine ⟨h, ?_, ?_, hle, ?_⟩
        · show earliestLoop rest (earliestMin (some e) h0) = some h.hash
          rw [show earliestMin (some e) h0 = some e from by simp [earliestMin, hcmp]]
          exact heq
        · rcases hmem with hm | hm
          · exact Or.inl (List.mem_cons_of_mem _ hm)
          · exact Or.inr hm
        · intro h2 hmem2
          rcases List.mem_cons.mp hmem2 with hm | hm
          · have hh2 : h2 = h0 := by
              injection hm.symm with heq2
              exact heq2.symm
            subst hh2
            omega
          · exact hall h2 hm

/-- Claim C9: getEarliestHeadHash returns null as soon as some loaded
account has a null head, even when other accounts have heads, and
scanTransactions then falls back to the genesis hash; when every account
has a head, the hash of a head with minimal sequence is returned. -/
theorem getEarliestHeadHash_spec :
    (∀ (heads : List (Option Head)), none ∈ heads →
      getEarliestHeadHash heads = none) ∧
    (∀ (heads : List (Option Head)), heads ≠ [] → none ∉ heads →
      ∃ h : Head, some h ∈ heads ∧ getEarliestHeadHash heads = some h.hash ∧
        ∀ h2 : Head, some h2 ∈ heads → h.sequence ≤ h2.sequence) ∧
    (∀ (heads : List (Option Head)) (genesisHash : Nat), none ∈ heads →
      scanBeginHash none (getEarliestHeadHash heads) genesisHash = genesisHash) := by
  have part1 : ∀ (heads : List (Option Head)), none ∈ heads →
      getEarliestHeadHash heads = none := by
    intro heads hmem
    exact earliestLoop_none_mem heads none hmem
  refine ⟨part1, ?_, ?_⟩
  · intro heads hne hnm
    cases heads with
    | nil => exact absurd rfl hne
    | cons oh rest =>
      cases oh with
      | none => exact absurd (List.mem_cons_self _ _) hnm
      | some h0 =>
        have hnm2 : none ∉ rest := fun hc => hnm (List.mem_cons_of_mem _ hc)
        obtain ⟨h, heq, hmem, hle, hall⟩ := earliestLoop_min rest h0 hnm2
        refine ⟨h, ?_, ?_, ?_⟩
        · rcases hmem with hm | hm
          · exact List.mem_cons_of_mem _ hm
          · rw [hm]
            exact List.mem_cons_self _ _
        · show earliestLoop (some h0 :: rest) none = some h.hash
          exact heq
        · intro h2 hmem2
          rcases List.mem_cons.mp hmem2 with hm | hm
          · have hh2 : h2 = h0 := by
              injection hm.symm with hJ
              exact hJ.symm
            subst hh2
            omega
          · exact hall h2 hm
  · intro heads genesisHash hmem
    rw [part1 heads hmem]
    rfl

/-- Witness for C9: with one account at head sequence three and one account
with a null head, the earliest head hash is null and the scan starts from
the genesis hash. -/
theorem getEarliestHeadHash_spec_witness :
    getEarliestHeadHash [some ⟨5, 3⟩, none] = none ∧
    scanBeginHash none (getEarliestHeadHash [some ⟨5, 3⟩, none]) 99 = 99 :=
  ⟨getEarliestHeadHash_spec.1 [some ⟨5, 3⟩, none] (by simp),
   getEarliestHeadHash_spec.2.2 [some ⟨5, 3⟩, none] 99 (by simp)⟩

/-- A stored wallet account, reduced to the fields the creation and import
paths touch; names are encoded as numbers, with zero encoding the empty
string. -/
structure WalletAccount where
  id : Nat
  name : Nat
  spendingKey : Nat
  head : Option Head
deriving DecidableEq

/-- Embedding of Wallet.getAccountByName: the first loaded account with the
given name, if any. -/
def getAccountByName (accounts : List WalletAccount) (name : Nat) :
    Option WalletAccount :=
  accounts.find? (fun a => a.name == name)

/-- Embedding of Wallet.skipRescan: when the chain processor hash or
sequence is null the account head is set to null, otherwise to the cursor
hash and sequence. -/
def skipRescan (chainProcessorHash : Option Nat) (chainProcessorSequence : Option Int) :
    Option Head :=
  match chainProcessorHash, chainProcessorSequence with
  | some hash, some sequence => some ⟨hash, sequence⟩
  | _, _ => none

/-- Error results of the account creation and import paths. -/
inductive CreateAccountError where
  | nameExists
  | spendingKeyExists
deriving DecidableEq

/-- Embedding of Wallet.createAccount: reject a duplicate name, otherwise
store a fresh account whose head is initialized through skipRescan from the
chain processor cursor. -/
def createAccount (chainProcessorHash : Option Nat)
    (chainProcessorSequence : Option Int) (newId newKey name : Nat)
    (accounts : List WalletAccount) : Except CreateAccountError WalletAccount :=
  if (getAccountByName accounts name).isSome then .error .nameExists
  else
    .ok { id := newId, name := name, spendingKey := newKey,
          head := skipRescan chainProcessorHash chainProcessorSequence }

/-- Embedding of Wallet.importAccount: reject a duplicate truthy name or a
duplicate spending key, otherwise store the imported account with a null
head, so it is scanned from the beginning. -/
def importAccount (spendingKey name newId : Nat)
    (accounts : List WalletAccount) : Except CreateAccountError WalletAccount :=
  if name != 0 && (getAccountByName accounts name).isSome then .error .nameExists
  else if accounts.any (fun a => a.spendingKey == spendingKey) then
    .error .spendingKeyExists
  else .ok { id := newId, name := name, spendingKey := spendingKey, head := none }

/-- Claim C10: createAccount initializes the head of the new account from
the chain processor cursor, the cursor hash and sequence when set and null
when the cursor is null, while importAccount always initializes the head of
the imported account to null. -/
theorem createAccount_head_spec :
    (∀ (cpHash : Option Nat) (cpSeq : Option Int) (newId newKey name : Nat)
        (accounts : List WalletAccount) (a : WalletAccount),
      createAccount cpHash cpSeq newId newKey name accounts = .ok a →
      a.head = skipRescan cpHash cpSeq) ∧
    (∀ (hash : Nat) (sequence : Int),
      skipRescan (some hash) (some sequence) = some ⟨hash, sequence⟩) ∧
    (∀ (cpSeq : Option Int), skipRescan none cpSeq = none) ∧
    (∀ (spendingKey name newId : Nat) (accounts : List WalletAccount)
        (a : WalletAccount),
      importAccount spendingKey name newId accounts = .ok a → a.head = none) := by
  refine ⟨?_, ?_, ?_, ?_⟩
  · intro cpHash cpSeq newId newKey name accounts a hok
    simp only [createAccount] at hok
    split at hok
    · exact Except.noConfusion hok
    · cases hok
      rfl
  · intro hash sequence
    rfl
  · intro cpSeq
    cases cpSeq <;> rfl
  · intro spendingKey name newId accounts a hok
    simp only [importAccount] at hok
    split at hok
    · exact Except.noConfusion hok
    · split at hok
      · exact Except.noConfusion hok
      · cases hok
        rfl

/-- Witness for C10: a new account created while the cursor sits at hash
seven, sequence four, starts with that head, and an imported account starts
with a null head. -/
theorem createAccount_head_spec_witness :
    (⟨1, 3, 2, some ⟨7, 4⟩⟩ : WalletAccount).head = skipRescan (some 7) (some 4) ∧
    skipRescan (some 7) (some 4) = some ⟨7, 4⟩ ∧
    (⟨6, 3, 2, none⟩ : WalletAccount).head = none :=
  ⟨createAccount_head_spec.1 (some 7) (some 4) 1 2 3 [] ⟨1, 3, 2, some ⟨7, 4⟩⟩ rfl,
   createAccount_head_spec.2.1 7 4,
   createAccount_head_spec.2.2.2 2 3 6 [] ⟨6, 3, 2, none⟩ rfl⟩

end IronfishWallet
